import Mathlib

/-!
Shallow embedding of the core of `src/demo/src/lib/zip.ts`:

* the bounds-checked `Reader` cursor over an immutable byte buffer,
* the ZIP end-of-central-directory / central-directory / local-header
  parsers and the `unzip` entry catalog,
* the per-entry `open` closure (modelled as `openEntry`),
* the WASI-style host calls `fd_read` / `fd_write`.

Buffers and WebAssembly linear memory are modelled as `List Nat`, read
through `byteAt` which truncates every cell to a byte (`% 256`), exactly
as a `DataView` / `Uint8Array` view over an `ArrayBuffer` presents bytes.
JavaScript exceptions are modelled with `Except String`; the error
strings are kept static (the source interpolates values into its
messages, which no claim depends on).  File names decoded by
`TextDecoder` are modelled as their raw byte sequences.
-/

/-- A byte of the buffer: out-of-range indices give 0 (never reached by
the bounds-checked operations), and every cell is truncated to a byte. -/
def byteAt (d : List Nat) (i : Nat) : Nat := d.getD i 0 % 256

/-- Little-endian 32-bit value at `i`, as `DataView.getUint32(i, true)`. -/
def u32At (d : List Nat) (i : Nat) : Nat :=
  byteAt d i + byteAt d (i+1) * 256 + byteAt d (i+2) * 65536 + byteAt d (i+3) * 16777216

/-- Little-endian 16-bit value at `i`, as `DataView.getUint16(i, true)`. -/
def u16At (d : List Nat) (i : Nat) : Nat :=
  byteAt d i + byteAt d (i+1) * 256

/-- The byte view `new Uint8Array(buffer, off, len)` of a buffer region. -/
def byteSlice (d : List Nat) (off len : Nat) : List Nat :=
  ((d.drop off).take len).map (fun b => b % 256)

/-- The cursor of `class Reader`: an immutable buffer plus a position. -/
structure Reader where
  data : List Nat
  pos : Nat
deriving DecidableEq, Repr

/-- `Reader.prototype.seek`: a negative target is an offset from the end;
the resolved position must lie in `[0, len]`. -/
def Reader.seek (r : Reader) (pos : Int) : Except String Reader :=
  let p : Int := if pos < 0 then (r.data.length : Int) + pos else pos
  if p < 0 then .error "seek: < 0"
  else if p > (r.data.length : Int) then .error "seek: > this.len"
  else .ok { r with pos := p.toNat }

/-- `Reader.prototype.readU4`: little-endian `Uint32`, advances by 4. -/
def Reader.readU4 (r : Reader) : Except String (Nat × Reader) :=
  if r.pos + 4 > r.data.length then .error "readU4: out of range"
  else .ok (u32At r.data r.pos, { r with pos := r.pos + 4 })

/-- `Reader.prototype.readU2`: little-endian `Uint16`, advances by 2. -/
def Reader.readU2 (r : Reader) : Except String (Nat × Reader) :=
  if r.pos + 2 > r.data.length then .error "readU2: out of range"
  else .ok (u16At r.data r.pos, { r with pos := r.pos + 2 })

/-- `Reader.prototype.readBytes`: a view of `len` bytes, advances by `len`. -/
def Reader.readBytes (r : Reader) (len : Nat) : Except String (List Nat × Reader) :=
  if r.pos + len > r.data.length then .error "readBytes: out of range"
  else .ok (byteSlice r.data r.pos len, { r with pos := r.pos + len })

/-- `Reader.prototype.readString`: `TextDecoder` output modelled as the
raw bytes of `readBytes`. -/
def Reader.readString (r : Reader) (len : Nat) : Except String (List Nat × Reader) :=
  r.readBytes len

/-- The record returned by `readEndOfCentralDirectoryRecord`. -/
structure EndOfCentralDirectoryRecord where
  numberOfThisDisk : Nat
  numberOfTheDiskWithTheStartOfTheCentralDirectory : Nat
  totalNumberOfEntriesInTheCentralDirectoryOnThisDisk : Nat
  totalNumberOfEntriesInTheCentralDirectory : Nat
  sizeOfTheCentralDirectory : Nat
  offsetOfStartOfCentralDirectoryWithRespectToTheStartingDiskNumber : Nat
  dotZipFileCommentLength : Nat
deriving DecidableEq, Repr

/-- `readEndOfCentralDirectoryRecord`: signature check, fixed fields in
declared order, comment length must be zero. -/
def readEndOfCentralDirectoryRecord (r : Reader) :
    Except String (EndOfCentralDirectoryRecord × Reader) := do
  let (sig, r) ← r.readU4
  if sig ≠ 0x06054b50 then throw "Not implemented"
  let (numberOfThisDisk, r) ← r.readU2
  let (numberOfTheDiskWithTheStartOfTheCentralDirectory, r) ← r.readU2
  let (totalNumberOfEntriesInTheCentralDirectoryOnThisDisk, r) ← r.readU2
  let (totalNumberOfEntriesInTheCentralDirectory, r) ← r.readU2
  let (sizeOfTheCentralDirectory, r) ← r.readU4
  let (offsetOfStartOfCentralDirectoryWithRespectToTheStartingDiskNumber, r) ← r.readU4
  let (dotZipFileCommentLength, r) ← r.readU2
  if dotZipFileCommentLength ≠ 0 then throw "Not implemented"
  pure ({ numberOfThisDisk,
          numberOfTheDiskWithTheStartOfTheCentralDirectory,
          totalNumberOfEntriesInTheCentralDirectoryOnThisDisk,
          totalNumberOfEntriesInTheCentralDirectory,
          sizeOfTheCentralDirectory,
          offsetOfStartOfCentralDirectoryWithRespectToTheStartingDiskNumber,
          dotZipFileCommentLength }, r)

/-- A central directory entry, as returned by `readCentralDirectoryEntry`. -/
structure CentralDirectoryEntry where
  versionMadeBy : Nat
  versionNeededToExtract : Nat
  generalPurposeBitFlag : Nat
  compressionMethod : Nat
  lastModFileTime : Nat
  lastModFileDate : Nat
  crc32 : Nat
  compressedSize : Nat
  uncompressedSize : Nat
  diskNumberStart : Nat
  internalFileAttributes : Nat
  externalFileAttributes : Nat
  relativeOffsetOfLocalHeader : Nat
  fileName : List Nat
  extraField : List Nat
  fileComment : List Nat
deriving DecidableEq, Repr

/-- `readCentralDirectoryEntry`: signature check, fixed fields in declared
order, then the three variable-length fields. -/
def readCentralDirectoryEntry (r : Reader) :
    Except String (CentralDirectoryEntry × Reader) := do
  let (sig, r) ← r.readU4
  if sig ≠ 0x02014b50 then throw "Central directory signature mismatch"
  let (versionMadeBy, r) ← r.readU2
  let (versionNeededToExtract, r) ← r.readU2
  let (generalPurposeBitFlag, r) ← r.readU2
  let (compressionMethod, r) ← r.readU2
  let (lastModFileTime, r) ← r.readU2
  let (lastModFileDate, r) ← r.readU2
  let (crc32, r) ← r.readU4
  let (compressedSize, r) ← r.readU4
  let (uncompressedSize, r) ← r.readU4
  let (fileNameLength, r) ← r.readU2
  let (extraFieldLength, r) ← r.readU2
  let (fileCommentLength, r) ← r.readU2
  let (diskNumberStart, r) ← r.readU2
  let (internalFileAttributes, r) ← r.readU2
  let (externalFileAttributes, r) ← r.readU4
  let (relativeOffsetOfLocalHeader, r) ← r.readU4
  let (fileName, r) ← r.readString fileNameLength
  let (extraField, r) ← r.readBytes extraFieldLength
  let (fileComment, r) ← r.readBytes fileCommentLength
  pure ({ versionMadeBy, versionNeededToExtract, generalPurposeBitFlag,
          compressionMethod, lastModFileTime, lastModFileDate, crc32,
          compressedSize, uncompressedSize, diskNumberStart,
          internalFileAttributes, externalFileAttributes,
          relativeOffsetOfLocalHeader, fileName, extraField, fileComment }, r)

/-- A local file header, as returned by `readLocalFileHeader`. -/
structure LocalFileHeader where
  versionNeededToExtract : Nat
  generalPurposeBitFlag : Nat
  compressionMethod : Nat
  lastModFileTime : Nat
  lastModFileDate : Nat
  crc32 : Nat
  compressedSize : Nat
  uncompressedSize : Nat
  fileName : List Nat
  extraField : List Nat
deriving DecidableEq, Repr

/-- `readLocalFileHeader`: signature check, fixed fields, then name and
extra field. -/
def readLocalFileHeader (r : Reader) : Except String (LocalFileHeader × Reader) := do
  let (sig, r) ← r.readU4
  if sig ≠ 0x04034b50 then throw "Central directory signature mismatch"
  let (versionNeededToExtract, r) ← r.readU2
  let (generalPurposeBitFlag, r) ← r.readU2
  let (compressionMethod, r) ← r.readU2
  let (lastModFileTime, r) ← r.readU2
  let (lastModFileDate, r) ← r.readU2
  let (crc32, r) ← r.readU4
  let (compressedSize, r) ← r.readU4
  let (uncompressedSize, r) ← r.readU4
  let (fileNameLength, r) ← r.readU2
  let (extraFieldLength, r) ← r.readU2
  let (fileName, r) ← r.readString fileNameLength
  let (extraField, r) ← r.readBytes extraFieldLength
  pure ({ versionNeededToExtract, generalPurposeBitFlag, compressionMethod,
          lastModFileTime, lastModFileDate, crc32, compressedSize,
          uncompressedSize, fileName, extraField }, r)

/-- Result of a `ZipEntry.open()` call: either the stored bytes verbatim
(method 0) or the raw-deflate payload handed to the inflate stream
(method 8, decompression itself out of scope). -/
inductive OpenResult where
  | stored (bytes : List Nat)
  | deflated (raw : List Nat)
deriving DecidableEq, Repr

/-- The `open` closure of a catalog entry in `unzip`: seek to the entry's
local header, decode (and discard) the header, read `compressedSize` raw
bytes, then dispatch on the compression method. -/
def openEntry (r : Reader) (cde : CentralDirectoryEntry) :
    Except String (OpenResult × Reader) := do
  let r ← r.seek (cde.relativeOffsetOfLocalHeader : Int)
  let (_lfh, r) ← readLocalFileHeader r
  let (bytes, r) ← r.readBytes cde.compressedSize
  match cde.compressionMethod with
  | 0 => pure (.stored bytes, r)
  | 8 => pure (.deflated bytes, r)
  | _ => throw "Not supported"

/-- The trailer-locating prefix of `unzip`: `reader.seek(-22)` followed by
`readEndOfCentralDirectoryRecord`. -/
def readTrailer (d : List Nat) : Except String (EndOfCentralDirectoryRecord × Reader) := do
  let r ← Reader.seek ⟨d, 0⟩ (-22)
  readEndOfCentralDirectoryRecord r

/-- The central-directory loop of `unzip`: decode `n` consecutive entries. -/
def readEntries : Nat → Reader → Except String (List CentralDirectoryEntry × Reader)
  | 0, r => .ok ([], r)
  | n + 1, r => do
    let (cde, r) ← readCentralDirectoryEntry r
    let (rest, r) ← readEntries n r
    pure (cde :: rest, r)

/-- `unzip`: locate and decode the trailer, seek to the directory start,
decode exactly `totalNumberOfEntriesInTheCentralDirectoryOnThisDisk`
entries (in stored order). -/
def unzip (d : List Nat) : Except String (List CentralDirectoryEntry) := do
  let (eocd, r) ← readTrailer d
  let r ← r.seek (eocd.offsetOfStartOfCentralDirectoryWithRespectToTheStartingDiskNumber : Int)
  let (entries, _) ← readEntries eocd.totalNumberOfEntriesInTheCentralDirectoryOnThisDisk r
  pure entries

/-- The `records` catalog built by `unzip`'s loop: `records[cde.fileName] = …`
assigns in stored order, so a later entry overwrites an earlier one. -/
def records (entries : List CentralDirectoryEntry) :
    List Nat → Option CentralDirectoryEntry :=
  entries.foldl (fun acc cde =>
    fun name => if name = cde.fileName then some cde else acc name)
    (fun _ => none)

/-!
The `wasip1` host calls of the module bridge.  Linear memory is a
`List Nat` of bytes; `DataView` accesses and `Uint8Array` view creation
throw on out-of-range arguments, modelled by `Option`.
-/

/-- Overwrite the region starting at `addr` with `bs`. -/
def writeRegion (mem : List Nat) (addr : Nat) (bs : List Nat) : List Nat :=
  mem.take addr ++ bs ++ mem.drop (addr + bs.length)

/-- `view.getUint32(addr, true)` over linear memory. -/
def getU32m (mem : List Nat) (addr : Nat) : Option Nat :=
  if addr + 4 ≤ mem.length then some (u32At mem addr) else none

/-- `view.setUint32(addr, v, true)` over linear memory: the value is
stored modulo `2^32` as four little-endian bytes. -/
def setU32m (mem : List Nat) (addr v : Nat) : Option (List Nat) :=
  if addr + 4 ≤ mem.length then
    some (writeRegion mem addr
      [v % 256, v / 256 % 256, v / 65536 % 256, v / 16777216 % 256])
  else none

/-- `new Uint8Array(memory.buffer, buf, len)`: the in-range byte view. -/
def sliceM (mem : List Nat) (buf len : Nat) : Option (List Nat) :=
  if buf + len ≤ mem.length then some (byteSlice mem buf len) else none

/-- In-place mutation of a byte view by a callback that produced `new`:
the view keeps its length, each stored cell truncated to a byte. -/
def overlay (orig new : List Nat) : List Nat :=
  (new.map (fun b => b % 256)).take orig.length ++
    orig.drop (min new.length orig.length)

/-- A bound `stdin` provider: given the view, returns the byte count it
supplied together with the view's mutated contents. -/
def fd_read (stdin : List Nat → Nat × List Nat) (mem : List Nat)
    (fd iovsptr iovslen readptr : Nat) :
    Option (Nat × List Nat × List (List Nat)) :=
  if fd ≠ 0 then some (8, mem, [])
  else if iovslen = 0 then
    (setU32m mem readptr 0).map (fun m2 => (0, m2, []))
  else do
    let buf ← getU32m mem iovsptr
    let len ← getU32m mem (iovsptr + 4)
    let b ← sliceM mem buf len
    let p := stdin b
    let m1 := writeRegion mem buf (overlay b p.2)
    let m2 ← setU32m m1 readptr p.1
    some (0, m2, [b])

/-- The inner `while (b.length > 0)` loop of `fd_write`, with explicit
fuel since a consumer that keeps returning 0 never lets it finish.
Returns the bytes written for this vector and the list of slices the
consumer was invoked on. -/
def writeLoop (w : List Nat → Nat) : List Nat → Nat → Option (Nat × List (List Nat))
  | b, fuel =>
    if b.length = 0 then some (0, [])
    else match fuel with
      | 0 => none
      | fuel + 1 =>
        match writeLoop w (b.drop (w b)) fuel with
        | none => none
        | some (m, log) => some (w b + m, b :: log)

/-- The `for` loop of `fd_write` over the ciovec array. -/
def writeVecs (w : List Nat → Nat) (mem : List Nat) (fuel : Nat) :
    Nat → Nat → Option (Nat × List (List Nat))
  | _, 0 => some (0, [])
  | ptr, n + 1 => do
    let buf ← getU32m mem ptr
    let len ← getU32m mem (ptr + 4)
    let b ← sliceM mem buf len
    let (k, log1) ← writeLoop w b fuel
    let (rest, log2) ← writeVecs w mem fuel (ptr + 8) n
    some (k + rest, log1 ++ log2)

/-- The declared lengths of the ciovec array, in order. -/
def vecLens (mem : List Nat) : Nat → Nat → Option (List Nat)
  | _, 0 => some []
  | ptr, n + 1 => do
    let _buf ← getU32m mem ptr
    let len ← getU32m mem (ptr + 4)
    let rest ← vecLens mem (ptr + 8) n
    some (len :: rest)

/-- The body of `fd_write` once the consumer `w` for the descriptor has
been selected: drain every vector, then store the total at `writtenptr`. -/
def fdWriteRun (w : List Nat → Nat) (mem : List Nat)
    (ciovsptr ciovslen writtenptr fuel : Nat) :
    Option (Nat × List Nat × List (List Nat)) := do
  let (written, log) ← writeVecs w mem fuel ciovsptr ciovslen
  let m2 ← setU32m mem writtenptr written
  some (0, m2, log)

/-- `fd_write`: fd 1 uses `stdout`, fd 2 uses `stderr`, anything else is
the `badf` fault 8 before memory is touched; otherwise each vector is
drained by `writeLoop` and the total is stored at `writtenptr`. -/
def fd_write (stdout stderr : List Nat → Nat) (mem : List Nat)
    (fd ciovsptr ciovslen writtenptr fuel : Nat) :
    Option (Nat × List Nat × List (List Nat)) :=
  if fd = 1 then fdWriteRun stdout mem ciovsptr ciovslen writtenptr fuel
  else if fd = 2 then fdWriteRun stderr mem ciovsptr ciovslen writtenptr fuel
  else some (8, mem, [])

/-- Termination of an `fd_write` call: some fuel suffices. -/
def fdWriteTerminates (stdout stderr : List Nat → Nat) (mem : List Nat)
    (fd ciovsptr ciovslen writtenptr : Nat) : Prop :=
  ∃ fuel, (fd_write stdout stderr mem fd ciovsptr ciovslen writtenptr fuel).isSome

/-- Concrete archive: entry "a" stored (bytes 104 105) and entry "b" with
unsupported compression method 99 (byte 120). -/
def archA : List Nat := [80, 75, 3, 4, 20, 0, 0, 0, 0, 0, 0, 0, 0, 0, 0, 0, 0, 0, 2, 0, 0, 0, 2, 0, 0, 0, 1, 0, 0, 0, 97, 104, 105, 80, 75, 3, 4, 20, 0, 0, 0, 99, 0, 0, 0, 0, 0, 0, 0, 0, 0, 1, 0, 0, 0, 1, 0, 0, 0, 1, 0, 0, 0, 98, 120, 80, 75, 1, 2, 20, 0, 20, 0, 0, 0, 0, 0, 0, 0, 0, 0, 0, 0, 0, 0, 2, 0, 0, 0, 2, 0, 0, 0, 1, 0, 0, 0, 0, 0, 0, 0, 0, 0, 0, 0, 0, 0, 0, 0, 0, 0, 97, 80, 75, 1, 2, 20, 0, 20, 0, 0, 0, 99, 0, 0, 0, 0, 0, 0, 0, 0, 0, 1, 0, 0, 0, 1, 0, 0, 0, 1, 0, 0, 0, 0, 0, 0, 0, 0, 0, 0, 0, 0, 0, 33, 0, 0, 0, 98, 80, 75, 5, 6, 0, 0, 0, 0, 2, 0, 2, 0, 94, 0, 0, 0, 65, 0, 0, 0, 0, 0]

/-- Concrete archive: two stored entries both named "a" (bytes 1 and 2). -/
def archB : List Nat := [80, 75, 3, 4, 20, 0, 0, 0, 0, 0, 0, 0, 0, 0, 0, 0, 0, 0, 1, 0, 0, 0, 1, 0, 0, 0, 1, 0, 0, 0, 97, 1, 80, 75, 3, 4, 20, 0, 0, 0, 0, 0, 0, 0, 0, 0, 0, 0, 0, 0, 1, 0, 0, 0, 1, 0, 0, 0, 1, 0, 0, 0, 97, 2, 80, 75, 1, 2, 20, 0, 20, 0, 0, 0, 0, 0, 0, 0, 0, 0, 0, 0, 0, 0, 1, 0, 0, 0, 1, 0, 0, 0, 1, 0, 0, 0, 0, 0, 0, 0, 0, 0, 0, 0, 0, 0, 0, 0, 0, 0, 97, 80, 75, 1, 2, 20, 0, 20, 0, 0, 0, 0, 0, 0, 0, 0, 0, 0, 0, 0, 0, 1, 0, 0, 0, 1, 0, 0, 0, 1, 0, 0, 0, 0, 0, 0, 0, 0, 0, 0, 0, 0, 0, 32, 0, 0, 0, 97, 80, 75, 5, 6, 0, 0, 0, 0, 2, 0, 2, 0, 94, 0, 0, 0, 64, 0, 0, 0, 0, 0]

/-- Concrete archive: empty central directory, bare trailer. -/
def archE : List Nat := [80, 75, 5, 6, 0, 0, 0, 0, 0, 0, 0, 0, 0, 0, 0, 0, 0, 0, 0, 0, 0, 0]

deriving instance DecidableEq for Except

/-!  Inversion lemmas for the monadic parsers.  -/

/-- Inversion of a successful `Except` bind. -/
theorem exbind_ok {α β : Type} {x : Except String α} {f : α → Except String β} {b : β}
    (h : x >>= f = .ok b) : ∃ a, x = .ok a ∧ f a = .ok b := by
  cases x with
  | error e => simp [Bind.bind, Except.bind] at h
  | ok a => exact ⟨a, rfl, by simpa [Bind.bind, Except.bind] using h⟩

/-- A successful in-range slice has exactly the requested length. -/
theorem byteSlice_length {d : List Nat} {off len : Nat} (h : off + len ≤ d.length) :
    (byteSlice d off len).length = len := by
  simp only [byteSlice, List.length_map, List.length_take, List.length_drop]
  omega

/-- Characterization of a successful `readU4`. -/
theorem readU4_ok {r r' : Reader} {v : Nat} (h : r.readU4 = .ok (v, r')) :
    r.pos + 4 ≤ r.data.length ∧ v = u32At r.data r.pos ∧ r' = ⟨r.data, r.pos + 4⟩ := by
  unfold Reader.readU4 at h
  split at h
  · exact absurd h (by simp)
  · rename_i hgt
    simp only [Except.ok.injEq, Prod.mk.injEq] at h
    exact ⟨by omega, h.1.symm, h.2.symm⟩

/-- Characterization of a successful `readU2`. -/
theorem readU2_ok {r r' : Reader} {v : Nat} (h : r.readU2 = .ok (v, r')) :
    r.pos + 2 ≤ r.data.length ∧ v = u16At r.data r.pos ∧ r' = ⟨r.data, r.pos + 2⟩ := by
  unfold Reader.readU2 at h
  split at h
  · exact absurd h (by simp)
  · rename_i hgt
    simp only [Except.ok.injEq, Prod.mk.injEq] at h
    exact ⟨by omega, h.1.symm, h.2.symm⟩

/-- Characterization of a successful `readBytes`. -/
theorem readBytes_ok {r r' : Reader} {len : Nat} {bs : List Nat}
    (h : r.readBytes len = .ok (bs, r')) :
    r.pos + len ≤ r.data.length ∧ bs = byteSlice r.data r.pos len ∧
      bs.length = len ∧ r' = ⟨r.data, r.pos + len⟩ := by
  unfold Reader.readBytes at h
  split at h
  · exact absurd h (by simp)
  · rename_i hgt
    simp only [Except.ok.injEq, Prod.mk.injEq] at h
    refine ⟨by omega, h.1.symm, ?_, h.2.symm⟩
    rw [← h.1]
    exact byteSlice_length (by omega)

/-- Characterization of a successful `readString`. -/
theorem readString_ok {r r' : Reader} {len : Nat} {bs : List Nat}
    (h : r.readString len = .ok (bs, r')) :
    r.pos + len ≤ r.data.length ∧ bs = byteSlice r.data r.pos len ∧
      bs.length = len ∧ r' = ⟨r.data, r.pos + len⟩ :=
  readBytes_ok h

/-- Characterization of `seek`: it succeeds exactly when the resolved
position (from-the-end for a negative argument) lies inside the buffer,
and then only moves the cursor there. -/
theorem seek_cases (d : List Nat) (p : Nat) (q : Int) :
    (((if q < 0 then (d.length : Int) + q else q) < 0 ∨
        (d.length : Int) < (if q < 0 then (d.length : Int) + q else q)) →
      ∃ e, Reader.seek ⟨d, p⟩ q = .error e) ∧
    (0 ≤ (if q < 0 then (d.length : Int) + q else q) →
      (if q < 0 then (d.length : Int) + q else q) ≤ (d.length : Int) →
      Reader.seek ⟨d, p⟩ q = .ok ⟨d, (if q < 0 then (d.length : Int) + q else q).toNat⟩) := by
  by_cases hq : q < 0
  all_goals constructor
  · intro hbad
    rw [if_pos hq] at hbad
    simp only [Reader.seek, if_pos hq]
    by_cases h1 : (d.length : Int) + q < 0
    · rw [if_pos h1]
      exact ⟨_, rfl⟩
    · rw [if_neg h1]
      have h2 : (d.length : Int) + q > (d.length : Int) := by
        rcases hbad with h | h <;> omega
      rw [if_pos h2]
      exact ⟨_, rfl⟩
  · intro h0 hlen
    rw [if_pos hq] at h0 hlen ⊢
    simp only [Reader.seek, if_pos hq]
    rw [if_neg (by omega : ¬ (d.length : Int) + q < 0), if_neg (by omega : ¬ (d.length : Int) + q > (d.length : Int))]
  · intro hbad
    rw [if_neg hq] at hbad
    simp only [Reader.seek, if_neg hq]
    have h2 : q > (d.length : Int) := by
      rcases hbad with h | h <;> omega
    rw [if_pos h2]
    exact ⟨_, rfl⟩
  · intro h0 hlen
    rw [if_neg hq] at h0 hlen ⊢
    simp only [Reader.seek, if_neg hq]
    rw [if_neg (by omega : ¬ q > (d.length : Int))]

/-- A `throw` inside a do-block never yields `.ok`. -/
theorem exbind_throw {β : Type} {e : String} {f : PUnit → Except String β} {b : β} :
    ((throw e : Except String PUnit) >>= f) ≠ .ok b := by
  simp [Bind.bind, Except.bind, throw, throwThe, MonadExceptOf.throw]

/-- `pure` is neutral for bind in `Except`. -/
theorem exbind_pure {α β : Type} {a : α} {f : α → Except String β} :
    (pure a : Except String α) >>= f = f a := rfl

set_option maxHeartbeats 1000000 in
/-- A successful `readLocalFileHeader` leaves the buffer unchanged and the
cursor exactly past the 30 fixed bytes plus name and extra field. -/
theorem readLocalFileHeader_ok {r r' : Reader} {h : LocalFileHeader}
    (hh : readLocalFileHeader r = .ok (h, r')) :
    r'.data = r.data ∧
      r'.pos = r.pos + 30 + h.fileName.length + h.extraField.length := by
  unfold readLocalFileHeader at hh
  obtain ⟨⟨sig, r1⟩, hs1, hh⟩ := exbind_ok hh
  obtain ⟨hb1, hv1, hr1⟩ := readU4_ok hs1
  subst hr1
  dsimp only [] at hh
  split at hh
  · exact absurd hh exbind_throw
  rw [exbind_pure] at hh
  obtain ⟨⟨vne, r2⟩, hs2, hh⟩ := exbind_ok hh
  obtain ⟨hb2, hv2, hr2⟩ := readU2_ok hs2
  subst hr2
  obtain ⟨⟨flags, r3⟩, hs3, hh⟩ := exbind_ok hh
  obtain ⟨hb3, hv3, hr3⟩ := readU2_ok hs3
  subst hr3
  obtain ⟨⟨method, r4⟩, hs4, hh⟩ := exbind_ok hh
  obtain ⟨hb4, hv4, hr4⟩ := readU2_ok hs4
  subst hr4
  obtain ⟨⟨mtime, r5⟩, hs5, hh⟩ := exbind_ok hh
  obtain ⟨hb5, hv5, hr5⟩ := readU2_ok hs5
  subst hr5
  obtain ⟨⟨mdate, r6⟩, hs6, hh⟩ := exbind_ok hh
  obtain ⟨hb6, hv6, hr6⟩ := readU2_ok hs6
  subst hr6
  obtain ⟨⟨crc, r7⟩, hs7, hh⟩ := exbind_ok hh
  obtain ⟨hb7, hv7, hr7⟩ := readU4_ok hs7
  subst hr7
  obtain ⟨⟨csize, r8⟩, hs8, hh⟩ := exbind_ok hh
  obtain ⟨hb8, hv8, hr8⟩ := readU4_ok hs8
  subst hr8
  obtain ⟨⟨usize, r9⟩, hs9, hh⟩ := exbind_ok hh
  obtain ⟨hb9, hv9, hr9⟩ := readU4_ok hs9
  subst hr9
  obtain ⟨⟨nlen, r10⟩, hs10, hh⟩ := exbind_ok hh
  obtain ⟨hb10, hv10, hr10⟩ := readU2_ok hs10
  subst hr10
  obtain ⟨⟨elen, r11⟩, hs11, hh⟩ := exbind_ok hh
  obtain ⟨hb11, hv11, hr11⟩ := readU2_ok hs11
  subst hr11
  obtain ⟨⟨nameBs, r12⟩, hs12, hh⟩ := exbind_ok hh
  obtain ⟨hb12, hv12, hl12, hr12⟩ := readString_ok hs12
  subst hr12
  obtain ⟨⟨extraBs, r13⟩, hs13, hh⟩ := exbind_ok hh
  obtain ⟨hb13, hv13, hl13, hr13⟩ := readBytes_ok hs13
  subst hr13
  simp only [pure, Except.pure, Except.ok.injEq, Prod.mk.injEq] at hh
  obtain ⟨hrec, hr'⟩ := hh
  subst hr'
  subst hrec
  refine ⟨rfl, ?_⟩
  simp only []
  omega

/-- Bind of an explicit `.ok` reduces. -/
theorem exbind_okk {α β : Type} {a : α} {f : α → Except String β} :
    (Except.ok a : Except String α) >>= f = f a := rfl

/-- Bind of an explicit `.error` short-circuits. -/
theorem exbind_err {α β : Type} {e : String} {f : α → Except String β} :
    (Except.error e : Except String α) >>= f = .error e := rfl

/-- A `throw`n do-block is the corresponding `.error`. -/
theorem exbind_throw_eq {β : Type} {e : String} {f : PUnit → Except String β} :
    ((throw e : Except String PUnit) >>= f) = .error e := rfl

/-- Forward evaluation of an in-range `readU4`. -/
theorem readU4_eval {d : List Nat} {p : Nat} (h : p + 4 ≤ d.length) :
    Reader.readU4 ⟨d, p⟩ = .ok (u32At d p, ⟨d, p + 4⟩) := by
  unfold Reader.readU4
  rw [if_neg (by simpa using by omega : ¬ (Reader.mk d p).pos + 4 > (Reader.mk d p).data.length)]

/-- Forward evaluation of `seek (-22)` on a buffer of at least 22 bytes. -/
theorem seek_from_end {d : List Nat} {p : Nat} (h : 22 ≤ d.length) :
    Reader.seek ⟨d, p⟩ (-22) = .ok ⟨d, d.length - 22⟩ := by
  simp only [Reader.seek]
  rw [if_pos (by decide : (-22 : Int) < 0),
    if_neg (by omega : ¬ ((d.length : Int) + (-22) < 0)),
    if_neg (by omega : ¬ ((d.length : Int) + (-22) > (d.length : Int)))]
  have : ((d.length : Int) + (-22)).toNat = d.length - 22 := by omega
  rw [this]

/-- `seek (-22)` fails on a buffer shorter than 22 bytes. -/
theorem seek_from_end_err {d : List Nat} {p : Nat} (h : d.length < 22) :
    Reader.seek ⟨d, p⟩ (-22) = .error "seek: < 0" := by
  simp only [Reader.seek]
  rw [if_pos (by decide : (-22 : Int) < 0),
    if_pos (by omega : ((d.length : Int) + (-22) < 0))]

/-- Forward evaluation of an in-range nonnegative `seek`. -/
theorem seek_nat {d : List Nat} {p k : Nat} (h : k ≤ d.length) :
    Reader.seek ⟨d, p⟩ (k : Int) = .ok ⟨d, k⟩ := by
  simp only [Reader.seek]
  rw [if_neg (by omega : ¬ ((k : Int) < 0)),
    if_neg (by omega : ¬ ((k : Int) < 0)),
    if_neg (by omega : ¬ ((k : Int) > (d.length : Int)))]
  have : ((k : Int)).toNat = k := rfl
  rw [this]

/-- Inversion of a successful nonnegative `seek`. -/
theorem seek_nat_ok {r r1 : Reader} {k : Nat} (h : Reader.seek r (k : Int) = .ok r1) :
    k ≤ r.data.length ∧ r1 = ⟨r.data, k⟩ := by
  by_cases hk : k ≤ r.data.length
  · refine ⟨hk, ?_⟩
    cases r
    rw [seek_nat hk] at h
    exact (Except.ok.injEq .. ▸ h).symm
  · exfalso
    simp only [Reader.seek] at h
    rw [if_neg (by omega : ¬ ((k : Int) < 0)),
      if_neg (by omega : ¬ ((k : Int) < 0)),
      if_pos (by omega : ((k : Int) > (r.data.length : Int)))] at h
    exact absurd h (by simp)

/-- A successful `readCentralDirectoryEntry` checked its 4-byte signature
at the cursor position. -/
theorem readCentralDirectoryEntry_sig {r r' : Reader} {cde : CentralDirectoryEntry}
    (hh : readCentralDirectoryEntry r = .ok (cde, r')) :
    r.pos + 4 ≤ r.data.length ∧ u32At r.data r.pos = 0x02014b50 := by
  unfold readCentralDirectoryEntry at hh
  obtain ⟨⟨sig, r1⟩, hs1, hh⟩ := exbind_ok hh
  obtain ⟨hb1, hv1, hr1⟩ := readU4_ok hs1
  dsimp only [] at hh
  split at hh
  · exact absurd hh exbind_throw
  · rename_i hcond
    refine ⟨hb1, ?_⟩
    rw [← hv1]
    omega

/-- `readEntries n` decodes exactly `n` entries when it succeeds. -/
theorem readEntries_length {n : Nat} : ∀ {r : Reader} {es : List CentralDirectoryEntry}
    {r' : Reader}, readEntries n r = .ok (es, r') → es.length = n := by
  induction n with
  | zero =>
    intro r es r' h
    unfold readEntries at h
    simp only [Except.ok.injEq, Prod.mk.injEq] at h
    rw [← h.1]
    rfl
  | succ n ih =>
    intro r es r' h
    unfold readEntries at h
    obtain ⟨⟨cde, r1⟩, h1, h⟩ := exbind_ok h
    obtain ⟨⟨rest, r2⟩, h2, h⟩ := exbind_ok h
    simp only [pure, Except.pure, Except.ok.injEq, Prod.mk.injEq] at h
    rw [← h.1]
    simp only [List.length_cons]
    rw [ih h2]

/-- The catalog fold keeps, for each name, the last matching entry, and
otherwise falls back to the accumulator. -/
theorem records_foldl (entries : List CentralDirectoryEntry)
    (acc : List Nat → Option CentralDirectoryEntry) (n : List Nat) :
    entries.foldl (fun acc cde =>
        fun name => if name = cde.fileName then some cde else acc name) acc n =
      ((entries.filter (fun e => e.fileName = n)).getLast?).elim (acc n) some := by
  induction entries using List.reverseRecOn with
  | nil => simp
  | append_singleton l a ih =>
    rw [List.foldl_append, List.filter_append]
    by_cases hp : a.fileName = n
    · have hfa : List.filter (fun e => decide (e.fileName = n)) [a] = [a] := by
        simp [hp]
      rw [hfa, List.getLast?_concat]
      simp only [List.foldl_cons, List.foldl_nil, Option.elim]
      rw [if_pos hp.symm]
    · have hfa : List.filter (fun e => decide (e.fileName = n)) [a] = [] := by
        simp [hp]
      rw [hfa, List.append_nil]
      simp only [List.foldl_cons, List.foldl_nil]
      rw [if_neg (fun he => hp he.symm)]
      exact ih

/-- The catalog lookup is the last directory entry bearing the name. -/
theorem records_getLast (entries : List CentralDirectoryEntry) (n : List Nat) :
    records entries n = (entries.filter (fun e => e.fileName = n)).getLast? := by
  unfold records
  rw [records_foldl]
  cases (entries.filter (fun e => e.fileName = n)).getLast? <;> rfl

/-- Every parsed entry's name is present in the catalog, bound to an
entry of the same name. -/
theorem records_mem (entries : List CentralDirectoryEntry)
    (cde : CentralDirectoryEntry) (hmem : cde ∈ entries) :
    ∃ e, records entries cde.fileName = some e ∧ e.fileName = cde.fileName := by
  rw [records_getLast]
  have hne : entries.filter (fun e => e.fileName = cde.fileName) ≠ [] := by
    intro hnil
    have : cde ∈ entries.filter (fun e => e.fileName = cde.fileName) :=
      List.mem_filter.mpr ⟨hmem, by simp⟩
    rw [hnil] at this
    exact absurd this (List.not_mem_nil cde)
  obtain ⟨x, hx⟩ := Option.isSome_iff_exists.mp (List.getLast?_isSome.mpr hne)
  refine ⟨x, hx, ?_⟩
  have hxmem : x ∈ entries.filter (fun e => e.fileName = cde.fileName) :=
    List.mem_of_getLast?_eq_some hx
  simpa using (List.of_mem_filter hxmem)

/-- Inversion of a successful `open()` on a store-method entry: the
result is exactly the `compressedSize` bytes immediately after the local
file header, taken unchanged from the archive buffer. -/
theorem openEntry_stored {r r' : Reader} {cde : CentralDirectoryEntry} {res : OpenResult}
    (hm : cde.compressionMethod = 0)
    (hh : openEntry r cde = .ok (res, r')) :
    ∃ lfh rH, readLocalFileHeader ⟨r.data, cde.relativeOffsetOfLocalHeader⟩ = .ok (lfh, rH) ∧
      rH.data = r.data ∧
      rH.pos = cde.relativeOffsetOfLocalHeader + 30 + lfh.fileName.length + lfh.extraField.length ∧
      rH.pos + cde.compressedSize ≤ r.data.length ∧
      res = .stored (byteSlice r.data rH.pos cde.compressedSize) ∧
      (byteSlice r.data rH.pos cde.compressedSize).length = cde.compressedSize ∧
      r'.data = r.data := by
  unfold openEntry at hh
  obtain ⟨r1, h1, hh⟩ := exbind_ok hh
  obtain ⟨hk, hr1⟩ := seek_nat_ok h1
  subst hr1
  obtain ⟨⟨lfh, r2⟩, h2, hh⟩ := exbind_ok hh
  obtain ⟨hd2, hp2⟩ := readLocalFileHeader_ok h2
  dsimp only [] at hh
  obtain ⟨⟨bytes, r3⟩, h3, hh⟩ := exbind_ok hh
  obtain ⟨hb3, hv3, hl3, hr3⟩ := readBytes_ok h3
  subst hr3
  rw [hm] at hh
  dsimp only [] at hh
  simp only [pure, Except.pure, Except.ok.injEq, Prod.mk.injEq] at hh
  obtain ⟨hres, hr'⟩ := hh
  subst hr'
  refine ⟨lfh, r2, h2, hd2, by rw [hp2], by rw [← hd2]; exact hb3, ?_, ?_, hd2⟩
  · rw [← hres, hv3, hd2]
  · rw [← hd2]
    exact byteSlice_length hb3

/-- `open()` on an entry whose method is neither 0 nor 8 never succeeds. -/
theorem openEntry_unsupported {r : Reader} {cde : CentralDirectoryEntry}
    {p : OpenResult × Reader}
    (hm0 : cde.compressionMethod ≠ 0) (hm8 : cde.compressionMethod ≠ 8) :
    openEntry r cde ≠ .ok p := by
  intro hh
  unfold openEntry at hh
  obtain ⟨r1, h1, hh⟩ := exbind_ok hh
  obtain ⟨⟨lfh, r2⟩, h2, hh⟩ := exbind_ok hh
  dsimp only [] at hh
  obtain ⟨⟨bytes, r3⟩, h3, hh⟩ := exbind_ok hh
  split at hh
  · exact hm0 (by assumption)
  · exact hm8 (by assumption)
  · exact absurd hh (by simp [throw, throwThe, MonadExceptOf.throw])

/-- `open()` on a store or deflate entry succeeds as soon as the seek,
local-header parse and payload read succeed. -/
theorem openEntry_supported {r r1 r2 r3 : Reader} {cde : CentralDirectoryEntry}
    {lfh : LocalFileHeader} {bytes : List Nat}
    (hm : cde.compressionMethod = 0 ∨ cde.compressionMethod = 8)
    (h1 : Reader.seek r (cde.relativeOffsetOfLocalHeader : Int) = .ok r1)
    (h2 : readLocalFileHeader r1 = .ok (lfh, r2))
    (h3 : r2.readBytes cde.compressedSize = .ok (bytes, r3)) :
    ∃ res, openEntry r cde = .ok res := by
  unfold openEntry
  rw [h1, exbind_okk, h2, exbind_okk]
  dsimp only []
  rw [h3, exbind_okk]
  dsimp only []
  rcases hm with hm | hm <;> rw [hm]
  · exact ⟨(.stored bytes, r3), rfl⟩
  · exact ⟨(.deflated bytes, r3), rfl⟩

/-- A successful `seek` never changes the buffer. -/
theorem seek_data {r r1 : Reader} {q : Int} (h : Reader.seek r q = .ok r1) :
    r1.data = r.data := by
  simp only [Reader.seek] at h
  split at h <;> (try split at h) <;> (try split at h) <;>
    first
      | exact Except.noConfusion h
      | (simp only [Except.ok.injEq] at h; rw [← h])

/-- An out-of-range nonnegative `seek` fails. -/
theorem seek_nat_err {d : List Nat} {p k : Nat} (h : d.length < k) :
    Reader.seek ⟨d, p⟩ (k : Int) = .error "seek: > this.len" := by
  simp only [Reader.seek]
  rw [if_neg (by omega : ¬ ((k : Int) < 0)),
    if_neg (by omega : ¬ ((k : Int) < 0)),
    if_pos (by omega : ((k : Int) > (d.length : Int)))]

/-- A successful `readEndOfCentralDirectoryRecord` leaves the buffer
unchanged. -/
theorem readEndOfCentralDirectoryRecord_ok {r r' : Reader}
    {eocd : EndOfCentralDirectoryRecord}
    (hh : readEndOfCentralDirectoryRecord r = .ok (eocd, r')) :
    r'.data = r.data := by
  unfold readEndOfCentralDirectoryRecord at hh
  obtain ⟨⟨sig, r1⟩, hs1, hh⟩ := exbind_ok hh
  obtain ⟨hb1, hv1, hr1⟩ := readU4_ok hs1
  subst hr1
  dsimp only [] at hh
  split at hh
  · exact absurd hh exbind_throw
  rw [exbind_pure] at hh
  obtain ⟨⟨v1, r2⟩, hs2, hh⟩ := exbind_ok hh
  obtain ⟨hb2, hv2, hr2⟩ := readU2_ok hs2
  subst hr2
  obtain ⟨⟨v2, r3⟩, hs3, hh⟩ := exbind_ok hh
  obtain ⟨hb3, hv3, hr3⟩ := readU2_ok hs3
  subst hr3
  obtain ⟨⟨v3, r4⟩, hs4, hh⟩ := exbind_ok hh
  obtain ⟨hb4, hv4, hr4⟩ := readU2_ok hs4
  subst hr4
  obtain ⟨⟨v4, r5⟩, hs5, hh⟩ := exbind_ok hh
  obtain ⟨hb5, hv5, hr5⟩ := readU2_ok hs5
  subst hr5
  obtain ⟨⟨v5, r6⟩, hs6, hh⟩ := exbind_ok hh
  obtain ⟨hb6, hv6, hr6⟩ := readU4_ok hs6
  subst hr6
  obtain ⟨⟨v6, r7⟩, hs7, hh⟩ := exbind_ok hh
  obtain ⟨hb7, hv7, hr7⟩ := readU4_ok hs7
  subst hr7
  obtain ⟨⟨v7, r8⟩, hs8, hh⟩ := exbind_ok hh
  obtain ⟨hb8, hv8, hr8⟩ := readU2_ok hs8
  subst hr8
  dsimp only [] at hh
  split at hh
  · exact absurd hh exbind_throw
  rw [exbind_pure] at hh
  simp only [pure, Except.pure, Except.ok.injEq, Prod.mk.injEq] at hh
  rw [← hh.2]

/-- The reader returned by locating the trailer still holds the archive. -/
theorem readTrailer_data {d : List Nat} {eocd : EndOfCentralDirectoryRecord}
    {r : Reader} (hh : readTrailer d = .ok (eocd, r)) : r.data = d := by
  unfold readTrailer at hh
  obtain ⟨r1, h1, hh⟩ := exbind_ok hh
  rw [readEndOfCentralDirectoryRecord_ok hh, seek_data h1]

/-- `openEntry` ignores the incoming cursor position. -/
theorem openEntry_pos_irrel (d : List Nat) (p p' : Nat) (cde : CentralDirectoryEntry) :
    openEntry ⟨d, p⟩ cde = openEntry ⟨d, p'⟩ cde := rfl

/-- A successful `openEntry` leaves the buffer unchanged. -/
theorem openEntry_data_eq {r r1 : Reader} {cde : CentralDirectoryEntry}
    {res : OpenResult} (hh : openEntry r cde = .ok (res, r1)) : r1.data = r.data := by
  unfold openEntry at hh
  obtain ⟨ra, h1, hh⟩ := exbind_ok hh
  obtain ⟨hk, hra⟩ := seek_nat_ok h1
  subst hra
  obtain ⟨⟨lfh, rb⟩, h2, hh⟩ := exbind_ok hh
  obtain ⟨hdb, _⟩ := readLocalFileHeader_ok h2
  dsimp only [] at hh
  obtain ⟨⟨bytes, rc⟩, h3, hh⟩ := exbind_ok hh
  obtain ⟨_, _, _, hrc⟩ := readBytes_ok h3
  subst hrc
  split at hh
  · simp only [pure, Except.pure, Except.ok.injEq, Prod.mk.injEq] at hh
    rw [← hh.2]
    exact hdb
  · simp only [pure, Except.pure, Except.ok.injEq, Prod.mk.injEq] at hh
    rw [← hh.2]
    exact hdb
  · exact absurd hh (by simp [throw, throwThe, MonadExceptOf.throw])

/-- The first central directory entry of `archA` (name "a", stored). -/
def cdeA0 : CentralDirectoryEntry :=
  { versionMadeBy := 20, versionNeededToExtract := 20, generalPurposeBitFlag := 0,
    compressionMethod := 0, lastModFileTime := 0, lastModFileDate := 0, crc32 := 0,
    compressedSize := 2, uncompressedSize := 2, diskNumberStart := 0,
    internalFileAttributes := 0, externalFileAttributes := 0,
    relativeOffsetOfLocalHeader := 0, fileName := [97], extraField := [],
    fileComment := [] }

/-- The second central directory entry of `archA` (name "b", method 99). -/
def cdeA1 : CentralDirectoryEntry :=
  { cdeA0 with
    compressionMethod := 99
    compressedSize := 1
    uncompressedSize := 1
    relativeOffsetOfLocalHeader := 33
    fileName := [98] }

/-- The first central directory entry of `archB` (name "a", payload 1). -/
def cdeB0 : CentralDirectoryEntry :=
  { cdeA0 with
    compressedSize := 1
    uncompressedSize := 1 }

/-- The second central directory entry of `archB` (name "a", payload 2). -/
def cdeB1 : CentralDirectoryEntry :=
  { cdeB0 with
    relativeOffsetOfLocalHeader := 32 }

/-- A bare trailer whose directory offset (100) exceeds the buffer length. -/
def archT : List Nat :=
  [80, 75, 5, 6, 0, 0, 0, 0, 0, 0, 0, 0, 0, 0, 0, 0, 100, 0, 0, 0, 0, 0]

/-- C1: opening an archive seeks to `length - 22`, fails unless the four
bytes there are the end-of-directory magic, then (after decoding the
trailer) seeks to the directory start offset and decodes exactly
`totalNumberOfEntriesInTheCentralDirectoryOnThisDisk` central-directory
entries, each checked against the central-directory signature — so the
trailer's this-disk count equals the number of decoded records. -/
theorem C1_trailer_seek_and_entry_count :
    (∀ d : List Nat, d.length < 22 → ∃ e, unzip d = .error e) ∧
    (∀ d : List Nat, 22 ≤ d.length → u32At d (d.length - 22) ≠ 0x06054b50 →
      ∃ e, unzip d = .error e) ∧
    (∀ (d : List Nat) (entries : List CentralDirectoryEntry),
      unzip d = .ok entries → ∃ eocd r, readTrailer d = .ok (eocd, r) ∧
        entries.length = eocd.totalNumberOfEntriesInTheCentralDirectoryOnThisDisk) ∧
    (∀ (r r' : Reader) (cde : CentralDirectoryEntry),
      readCentralDirectoryEntry r = .ok (cde, r') → u32At r.data r.pos = 0x02014b50) := by
  refine ⟨?_, ?_, ?_, ?_⟩
  · intro d hlen
    refine ⟨"seek: < 0", ?_⟩
    unfold unzip readTrailer
    rw [seek_from_end_err hlen, exbind_err, exbind_err]
  · intro d hlen hmagic
    refine ⟨"Not implemented", ?_⟩
    unfold unzip readTrailer
    rw [seek_from_end hlen, exbind_okk]
    unfold readEndOfCentralDirectoryRecord
    rw [readU4_eval (by omega), exbind_okk]
    dsimp only []
    rw [if_pos hmagic, exbind_throw_eq, exbind_err]
  · intro d entries hz
    unfold unzip at hz
    obtain ⟨⟨eocd, r1⟩, h1, hz⟩ := exbind_ok hz
    dsimp only [] at hz
    obtain ⟨r2, h2, hz⟩ := exbind_ok hz
    obtain ⟨⟨es, r3⟩, h3, hz⟩ := exbind_ok hz
    simp only [pure, Except.pure, Except.ok.injEq] at hz
    refine ⟨eocd, r1, h1, ?_⟩
    rw [← hz]
    exact readEntries_length h3
  · intro r r' cde h
    exact (readCentralDirectoryEntry_sig h).2

set_option maxRecDepth 40000 in
/-- Witness for C1: the empty buffer and a 22-byte all-zero buffer fail;
`archE` decodes zero entries, matching its trailer count; the concrete
central-directory entry of `archA` at offset 65 carries the signature. -/
theorem C1_witness :
    (∃ e, unzip [] = .error e) ∧
    (∃ e, unzip (List.replicate 22 0) = .error e) ∧
    (∃ eocd r, readTrailer archE = .ok (eocd, r) ∧
      ([] : List CentralDirectoryEntry).length =
        eocd.totalNumberOfEntriesInTheCentralDirectoryOnThisDisk) ∧
    u32At archA 65 = 0x02014b50 :=
  ⟨C1_trailer_seek_and_entry_count.1 [] (by decide),
   C1_trailer_seek_and_entry_count.2.1 (List.replicate 22 0) (by decide) (by decide),
   C1_trailer_seek_and_entry_count.2.2.1 archE [] (by decide),
   C1_trailer_seek_and_entry_count.2.2.2 ⟨archA, 65⟩ ⟨archA, 112⟩ cdeA0 (by decide)⟩

/-- C2: `open()` on a store-method (method 0) entry yields exactly the
`compressedSize` bytes located immediately after that entry's local file
header in the archive buffer, unchanged. -/
theorem C2_store_open_bytes (r r' : Reader) (cde : CentralDirectoryEntry)
    (res : OpenResult) (hm : cde.compressionMethod = 0)
    (hh : openEntry r cde = .ok (res, r')) :
    ∃ lfh rH,
      readLocalFileHeader ⟨r.data, cde.relativeOffsetOfLocalHeader⟩ = .ok (lfh, rH) ∧
      rH.data = r.data ∧
      rH.pos = cde.relativeOffsetOfLocalHeader + 30 + lfh.fileName.length +
        lfh.extraField.length ∧
      rH.pos + cde.compressedSize ≤ r.data.length ∧
      res = .stored (byteSlice r.data rH.pos cde.compressedSize) ∧
      (byteSlice r.data rH.pos cde.compressedSize).length = cde.compressedSize ∧
      r'.data = r.data :=
  openEntry_stored hm hh

set_option maxRecDepth 40000 in
/-- Witness for C2: entry "a" of `archA` opens to its two stored payload
bytes, sitting right after the 31-byte local header. -/
theorem C2_witness :
    ∃ lfh rH,
      readLocalFileHeader ⟨archA, cdeA0.relativeOffsetOfLocalHeader⟩ = .ok (lfh, rH) ∧
      rH.data = archA ∧
      rH.pos = cdeA0.relativeOffsetOfLocalHeader + 30 + lfh.fileName.length +
        lfh.extraField.length ∧
      rH.pos + cdeA0.compressedSize ≤ archA.length ∧
      OpenResult.stored [104, 105] = .stored (byteSlice archA rH.pos cdeA0.compressedSize) ∧
      (byteSlice archA rH.pos cdeA0.compressedSize).length = cdeA0.compressedSize ∧
      archA = archA :=
  C2_store_open_bytes ⟨archA, 0⟩ ⟨archA, 33⟩ cdeA0 (.stored [104, 105]) rfl (by decide)

/-- C3: an entry with a compression method other than 0 or 8 still parses
into the catalog; only `open()` on it fails, while entries with method 0
or 8 whose read chain succeeds remain openable. -/
theorem C3_unsupported_fails_only_at_open :
    (∀ (d : List Nat) (entries : List CentralDirectoryEntry) (cde : CentralDirectoryEntry),
      unzip d = .ok entries → cde ∈ entries →
      ∃ e, records entries cde.fileName = some e ∧ e.fileName = cde.fileName) ∧
    (∀ (r : Reader) (cde : CentralDirectoryEntry) (p : OpenResult × Reader),
      cde.compressionMethod ≠ 0 → cde.compressionMethod ≠ 8 → openEntry r cde ≠ .ok p) ∧
    (∀ (r r1 r2 r3 : Reader) (cde : CentralDirectoryEntry) (lfh : LocalFileHeader)
      (bytes : List Nat),
      (cde.compressionMethod = 0 ∨ cde.compressionMethod = 8) →
      Reader.seek r (cde.relativeOffsetOfLocalHeader : Int) = .ok r1 →
      readLocalFileHeader r1 = .ok (lfh, r2) →
      r2.readBytes cde.compressedSize = .ok (bytes, r3) →
      ∃ res, openEntry r cde = .ok res) :=
  ⟨fun _ entries cde _ hmem => records_mem entries cde hmem,
   fun _ _ _ h0 h8 => openEntry_unsupported h0 h8,
   fun _ _ _ _ _ _ _ hm h1 h2 h3 => openEntry_supported hm h1 h2 h3⟩

set_option maxRecDepth 40000 in
/-- Witness for C3: `archA` parses although entry "b" has method 99; "b"
is in the catalog; opening "b" fails while opening "a" succeeds. -/
theorem C3_witness :
    unzip archA = .ok [cdeA0, cdeA1] ∧
    (∃ e, records [cdeA0, cdeA1] cdeA1.fileName = some e ∧ e.fileName = cdeA1.fileName) ∧
    openEntry ⟨archA, 0⟩ cdeA1 ≠ .ok (.stored [120], ⟨archA, 65⟩) ∧
    openEntry ⟨archA, 0⟩ cdeA1 = .error "Not supported" ∧
    openEntry ⟨archA, 0⟩ cdeA0 = .ok (.stored [104, 105], ⟨archA, 33⟩) :=
  ⟨by decide,
   C3_unsupported_fails_only_at_open.1 archA [cdeA0, cdeA1] cdeA1 (by decide) (by decide),
   C3_unsupported_fails_only_at_open.2.1 ⟨archA, 0⟩ cdeA1 (.stored [120], ⟨archA, 65⟩)
     (by decide) (by decide),
   by decide,
   by decide⟩

/-- C4: when the directory holds two or more entries of the same name,
the catalog maps that name to the last such entry in directory order. -/
theorem C4_duplicate_names_last_wins (d : List Nat)
    (entries : List CentralDirectoryEntry) (name : List Nat)
    (hz : unzip d = .ok entries)
    (hdup : 2 ≤ (entries.filter (fun e => e.fileName = name)).length) :
    records entries name = (entries.filter (fun e => e.fileName = name)).getLast? ∧
    ∃ e, records entries name = some e := by
  refine ⟨records_getLast entries name, ?_⟩
  rw [records_getLast]
  apply Option.isSome_iff_exists.mp
  apply List.getLast?_isSome.mpr
  intro hnil
  rw [hnil] at hdup
  exact absurd hdup (by decide)

set_option maxRecDepth 40000 in
/-- Witness for C4: `archB` holds two entries named "a"; the catalog
keeps the second (local header at offset 32). -/
theorem C4_witness :
    (records [cdeB0, cdeB1] [97] = ([cdeB0, cdeB1].filter (fun e => e.fileName = [97])).getLast? ∧
      ∃ e, records [cdeB0, cdeB1] [97] = some e) ∧
    records [cdeB0, cdeB1] [97] = some cdeB1 ∧
    unzip archB = .ok [cdeB0, cdeB1] :=
  ⟨C4_duplicate_names_last_wins archB [cdeB0, cdeB1] [97] (by decide) (by decide),
   by decide,
   by decide⟩

/-- C5: `open()` is a pure function of the directory record and the
archive bytes: the incoming cursor position is irrelevant, a successful
open leaves the buffer unchanged, and re-opening after a successful open
returns the identical result. -/
theorem C5_open_idempotent_pure (d : List Nat) (p p' : Nat) (r r1 : Reader)
    (cde : CentralDirectoryEntry) (res : OpenResult) :
    openEntry ⟨d, p⟩ cde = openEntry ⟨d, p'⟩ cde ∧
    (openEntry r cde = .ok (res, r1) → r1.data = r.data) ∧
    (openEntry r cde = .ok (res, r1) → openEntry r1 cde = .ok (res, r1)) := by
  refine ⟨openEntry_pos_irrel d p p' cde, fun hh => openEntry_data_eq hh, fun hh => ?_⟩
  obtain ⟨d1, p1⟩ := r1
  have hd : d1 = r.data := openEntry_data_eq hh
  subst hd
  rw [openEntry_pos_irrel r.data p1 r.pos cde]
  exact hh

set_option maxRecDepth 40000 in
/-- Witness for C5: opening entry "a" of `archA` from two different
cursor positions agrees, keeps the buffer, and re-opens identically. -/
theorem C5_witness :
    openEntry ⟨archA, 0⟩ cdeA0 = openEntry ⟨archA, 65⟩ cdeA0 ∧
    ((⟨archA, 33⟩ : Reader).data = (⟨archA, 0⟩ : Reader).data) ∧
    openEntry ⟨archA, 33⟩ cdeA0 = .ok (.stored [104, 105], ⟨archA, 33⟩) :=
  ⟨(C5_open_idempotent_pure archA 0 65 ⟨archA, 0⟩ ⟨archA, 33⟩ cdeA0
      (.stored [104, 105])).1,
   (C5_open_idempotent_pure archA 0 65 ⟨archA, 0⟩ ⟨archA, 33⟩ cdeA0
      (.stored [104, 105])).2.1 (by decide),
   (C5_open_idempotent_pure archA 0 65 ⟨archA, 0⟩ ⟨archA, 33⟩ cdeA0
      (.stored [104, 105])).2.2 (by decide)⟩

/-- C9: every cursor operation is bounds-checked and total — `seek`
resolves a negative position from the end and fails outside `[0, len]`;
the fixed-width and slice reads fail whenever `pos + size > length` and
otherwise advance by the size read; a trailer claiming a directory start
beyond the buffer makes `unzip` fail with an error. -/
theorem C9_cursor_bounds :
    (∀ (d : List Nat) (p : Nat) (q : Int),
      (((if q < 0 then (d.length : Int) + q else q) < 0 ∨
          (d.length : Int) < (if q < 0 then (d.length : Int) + q else q)) →
        ∃ e, Reader.seek ⟨d, p⟩ q = .error e) ∧
      (0 ≤ (if q < 0 then (d.length : Int) + q else q) →
        (if q < 0 then (d.length : Int) + q else q) ≤ (d.length : Int) →
        Reader.seek ⟨d, p⟩ q =
          .ok ⟨d, (if q < 0 then (d.length : Int) + q else q).toNat⟩)) ∧
    (∀ r : Reader,
      (r.data.length < r.pos + 4 → ∃ e, r.readU4 = .error e) ∧
      (r.pos + 4 ≤ r.data.length →
        r.readU4 = .ok (u32At r.data r.pos, ⟨r.data, r.pos + 4⟩))) ∧
    (∀ r : Reader,
      (r.data.length < r.pos + 2 → ∃ e, r.readU2 = .error e) ∧
      (r.pos + 2 ≤ r.data.length →
        r.readU2 = .ok (u16At r.data r.pos, ⟨r.data, r.pos + 2⟩))) ∧
    (∀ (r : Reader) (n : Nat),
      (r.data.length < r.pos + n → ∃ e, r.readBytes n = .error e) ∧
      (r.pos + n ≤ r.data.length →
        r.readBytes n = .ok (byteSlice r.data r.pos n, ⟨r.data, r.pos + n⟩) ∧
        (byteSlice r.data r.pos n).length = n)) ∧
    (∀ (d : List Nat) (eocd : EndOfCentralDirectoryRecord) (r : Reader),
      readTrailer d = .ok (eocd, r) →
      d.length < eocd.offsetOfStartOfCentralDirectoryWithRespectToTheStartingDiskNumber →
      ∃ e, unzip d = .error e) := by
  refine ⟨seek_cases, ?_, ?_, ?_, ?_⟩
  · intro r
    constructor
    · intro hbad
      refine ⟨"readU4: out of range", ?_⟩
      unfold Reader.readU4
      rw [if_pos (by omega)]
    · intro hle
      obtain ⟨dd, pp⟩ := r
      exact readU4_eval hle
  · intro r
    constructor
    · intro hbad
      refine ⟨"readU2: out of range", ?_⟩
      unfold Reader.readU2
      rw [if_pos (by omega)]
    · intro hle
      unfold Reader.readU2
      rw [if_neg (by omega)]
  · intro r n
    constructor
    · intro hbad
      refine ⟨"readBytes: out of range", ?_⟩
      unfold Reader.readBytes
      rw [if_pos (by omega)]
    · intro hle
      refine ⟨?_, byteSlice_length hle⟩
      unfold Reader.readBytes
      rw [if_neg (by omega)]
  · intro d eocd r htr hoff
    refine ⟨"seek: > this.len", ?_⟩
    have hrd : r.data = d := readTrailer_data htr
    unfold unzip
    rw [htr, exbind_okk]
    dsimp only []
    obtain ⟨rd, rp⟩ := r
    have hrd' : rd = d := hrd
    subst hrd'
    rw [seek_nat_err hoff, exbind_err]

set_option maxRecDepth 40000 in
/-- Witness for C9 on the three-byte buffer `[1, 2, 3]` and on the
trailer `archT`, whose directory offset 100 exceeds its 22 bytes. -/
theorem C9_witness :
    (∃ e, Reader.seek ⟨[1, 2, 3], 0⟩ (-5) = .error e) ∧
    Reader.seek ⟨[1, 2, 3], 0⟩ (-1) = .ok ⟨[1, 2, 3], 2⟩ ∧
    (∃ e, Reader.readU4 ⟨[1, 2, 3], 0⟩ = .error e) ∧
    Reader.readU2 ⟨[1, 2, 3], 1⟩ = .ok (770, ⟨[1, 2, 3], 3⟩) ∧
    Reader.readBytes ⟨[1, 2, 3], 1⟩ 2 = .ok ([2, 3], ⟨[1, 2, 3], 3⟩) ∧
    (∃ e, unzip archT = .error e) :=
  ⟨(C9_cursor_bounds.1 [1, 2, 3] 0 (-5)).1 (by decide),
   by
    have h := (C9_cursor_bounds.1 [1, 2, 3] 0 (-1)).2 (by decide) (by decide)
    simpa using h,
   (C9_cursor_bounds.2.1 ⟨[1, 2, 3], 0⟩).1 (by decide),
   by
    have h := (C9_cursor_bounds.2.2.1 ⟨[1, 2, 3], 1⟩).2 (by decide)
    simpa using h,
   by
    have h := ((C9_cursor_bounds.2.2.2.1 ⟨[1, 2, 3], 1⟩ 2).2 (by decide)).1
    simpa using h,
   C9_cursor_bounds.2.2.2.2 archT
     { numberOfThisDisk := 0, numberOfTheDiskWithTheStartOfTheCentralDirectory := 0,
       totalNumberOfEntriesInTheCentralDirectoryOnThisDisk := 0,
       totalNumberOfEntriesInTheCentralDirectory := 0, sizeOfTheCentralDirectory := 0,
       offsetOfStartOfCentralDirectoryWithRespectToTheStartingDiskNumber := 100,
       dotZipFileCommentLength := 0 }
     ⟨archT, 22⟩ (by decide) (by decide)⟩

/-- Bind of an explicit `some` reduces. -/
theorem obind_some {α β : Type} {a : α} {f : α → Option β} :
    (some a : Option α) >>= f = f a := rfl

/-- Overwriting an in-range region preserves the memory length. -/
theorem writeRegion_length {mem : List Nat} {addr : Nat} {bs : List Nat}
    (h : addr + bs.length ≤ mem.length) :
    (writeRegion mem addr bs).length = mem.length := by
  simp only [writeRegion, List.length_append, List.length_take, List.length_drop]
  omega

/-- Cells of an overwritten region hold the new bytes. -/
theorem getD_writeRegion_inside {mem : List Nat} {addr : Nat} {bs : List Nat} {i : Nat}
    (h : addr + bs.length ≤ mem.length) (hi : i < bs.length) :
    (writeRegion mem addr bs).getD (addr + i) 0 = bs.getD i 0 := by
  simp only [writeRegion, List.getD_eq_getElem?_getD]
  rw [List.getElem?_append_left (by simp only [List.length_append, List.length_take]; omega),
    List.getElem?_append_right (by simp only [List.length_take]; omega)]
  have hidx : addr + i - (mem.take addr).length = i := by
    simp only [List.length_take]
    omega
  rw [hidx]

/-- Cells outside an overwritten region are untouched. -/
theorem getD_writeRegion_outside {mem : List Nat} {addr : Nat} {bs : List Nat} {j : Nat}
    (h : addr + bs.length ≤ mem.length) (hj : j < addr ∨ addr + bs.length ≤ j) :
    (writeRegion mem addr bs).getD j 0 = mem.getD j 0 := by
  simp only [writeRegion, List.getD_eq_getElem?_getD]
  rcases hj with hj | hj
  · rw [List.getElem?_append_left (by simp only [List.length_append, List.length_take]; omega),
      List.getElem?_append_left (by simp only [List.length_take]; omega),
      List.getElem?_take_of_lt hj]
  · rw [List.getElem?_append_right (by simp only [List.length_append, List.length_take]; omega),
      List.getElem?_drop]
    have hidx : addr + bs.length + (j - (mem.take addr ++ bs).length) = j := by
      simp only [List.length_append, List.length_take]
      omega
    rw [hidx]

/-- `setU32m` stores the value modulo `2^32`, keeps the length and leaves
every other cell untouched. -/
theorem getU32m_setU32m {mem : List Nat} {addr v : Nat} (h : addr + 4 ≤ mem.length) :
    ∃ m2, setU32m mem addr v = some m2 ∧ m2.length = mem.length ∧
      getU32m m2 addr = some (v % 4294967296) ∧
      ∀ j, (j < addr ∨ addr + 4 ≤ j) → m2.getD j 0 = mem.getD j 0 := by
  have h4 : addr +
      ([v % 256, v / 256 % 256, v / 65536 % 256, v / 16777216 % 256] : List Nat).length ≤
      mem.length := by
    simp only [List.length_cons, List.length_nil]
    omega
  refine ⟨writeRegion mem addr [v % 256, v / 256 % 256, v / 65536 % 256, v / 16777216 % 256],
    ?_, writeRegion_length h4, ?_, ?_⟩
  · unfold setU32m
    rw [if_pos h]
  · have hlen : (writeRegion mem addr
        [v % 256, v / 256 % 256, v / 65536 % 256, v / 16777216 % 256]).length =
        mem.length := writeRegion_length h4
    have e0 : (writeRegion mem addr
        [v % 256, v / 256 % 256, v / 65536 % 256, v / 16777216 % 256]).getD addr 0 =
        v % 256 := by
      simpa using getD_writeRegion_inside h4
        (by simp : (0 : Nat) <
          ([v % 256, v / 256 % 256, v / 65536 % 256, v / 16777216 % 256] : List Nat).length)
    have e1 : (writeRegion mem addr
        [v % 256, v / 256 % 256, v / 65536 % 256, v / 16777216 % 256]).getD (addr + 1) 0 =
        v / 256 % 256 := by
      simpa using getD_writeRegion_inside h4
        (by simp : (1 : Nat) <
          ([v % 256, v / 256 % 256, v / 65536 % 256, v / 16777216 % 256] : List Nat).length)
    have e2 : (writeRegion mem addr
        [v % 256, v / 256 % 256, v / 65536 % 256, v / 16777216 % 256]).getD (addr + 2) 0 =
        v / 65536 % 256 := by
      simpa using getD_writeRegion_inside h4
        (by simp : (2 : Nat) <
          ([v % 256, v / 256 % 256, v / 65536 % 256, v / 16777216 % 256] : List Nat).length)
    have e3 : (writeRegion mem addr
        [v % 256, v / 256 % 256, v / 65536 % 256, v / 16777216 % 256]).getD (addr + 3) 0 =
        v / 16777216 % 256 := by
      simpa using getD_writeRegion_inside h4
        (by simp : (3 : Nat) <
          ([v % 256, v / 256 % 256, v / 65536 % 256, v / 16777216 % 256] : List Nat).length)
    unfold getU32m
    rw [if_pos (by omega)]
    unfold u32At byteAt
    rw [e0, e1, e2, e3]
    simp only [Option.some.injEq]
    omega
  · intro j hj
    exact getD_writeRegion_outside h4 (by simp only [List.length_cons, List.length_nil] at *; omega)

/-- Mutating a view through `overlay` keeps its length. -/
theorem overlay_length (orig new : List Nat) : (overlay orig new).length = orig.length := by
  simp only [overlay, List.length_append, List.length_take, List.length_drop,
    List.length_map]
  omega

/-- C8: `fd_read` on any descriptor other than 0, and `fd_write` on any
descriptor other than 1 or 2, return the bad-descriptor fault 8 with
memory unchanged and no provider or consumer invocation (empty call log,
result independent of the bound callbacks). -/
theorem C8_bad_descriptor_rejected :
    (∀ (stdin : List Nat → Nat × List Nat) (mem : List Nat) (fd iovsptr iovslen readptr : Nat),
      fd ≠ 0 → fd_read stdin mem fd iovsptr iovslen readptr = some (8, mem, [])) ∧
    (∀ (stdout stderr : List Nat → Nat) (mem : List Nat)
      (fd ciovsptr ciovslen writtenptr fuel : Nat),
      fd ≠ 1 → fd ≠ 2 →
      fd_write stdout stderr mem fd ciovsptr ciovslen writtenptr fuel = some (8, mem, [])) := by
  constructor
  · intro stdin mem fd iovsptr iovslen readptr hfd
    unfold fd_read
    rw [if_pos hfd]
  · intro stdout stderr mem fd ciovsptr ciovslen writtenptr fuel h1 h2
    unfold fd_write
    rw [if_neg h1, if_neg h2]

/-- Witness for C8: descriptor 3 on `fd_read`, descriptor 0 on `fd_write`. -/
theorem C8_witness :
    fd_read (fun v => (v.length, v)) [1, 2, 3, 4] 3 0 1 0 = some (8, [1, 2, 3, 4], []) ∧
    fd_write (fun b => b.length) (fun b => b.length) [1, 2, 3, 4] 0 0 1 0 5 =
      some (8, [1, 2, 3, 4], []) :=
  ⟨C8_bad_descriptor_rejected.1 (fun v => (v.length, v)) [1, 2, 3, 4] 3 0 1 0 (by decide),
   C8_bad_descriptor_rejected.2 (fun b => b.length) (fun b => b.length) [1, 2, 3, 4] 0 0 1 0 5
     (by decide) (by decide)⟩

/-- C10: `fd_read` on descriptor 0 with zero requested vectors never
invokes the provider (empty call log), stores 0 at the result-length
location and returns success. -/
theorem C10_empty_vector_list (stdin : List Nat → Nat × List Nat) (mem : List Nat)
    (iovsptr readptr : Nat) (h : readptr + 4 ≤ mem.length) :
    ∃ m2, fd_read stdin mem 0 iovsptr 0 readptr = some (0, m2, []) ∧
      m2.length = mem.length ∧ getU32m m2 readptr = some 0 ∧
      ∀ j, (j < readptr ∨ readptr + 4 ≤ j) → m2.getD j 0 = mem.getD j 0 := by
  obtain ⟨m2, hset, hlen, hget, hout⟩ :
      ∃ m2, setU32m mem readptr 0 = some m2 ∧ m2.length = mem.length ∧
        getU32m m2 readptr = some (0 % 4294967296) ∧
        ∀ j, (j < readptr ∨ readptr + 4 ≤ j) → m2.getD j 0 = mem.getD j 0 :=
    getU32m_setU32m h
  refine ⟨m2, ?_, hlen, by simpa using hget, hout⟩
  unfold fd_read
  rw [if_neg (by simp), if_pos rfl, hset]
  rfl

/-- Witness for C10: an empty vector list on the 13-byte memory `cmemW`. -/
theorem C10_witness :
    ∃ m2, fd_read (fun v => (v.length, v)) [12, 0, 0, 0, 1, 0, 0, 0, 9, 9, 9, 9, 7] 0 0 0 8 =
      some (0, m2, []) ∧
      m2.length = 13 ∧ getU32m m2 8 = some 0 ∧
      ∀ j, (j < 8 ∨ 12 ≤ j) →
        m2.getD j 0 = ([12, 0, 0, 0, 1, 0, 0, 0, 9, 9, 9, 9, 7] : List Nat).getD j 0 :=
  C10_empty_vector_list (fun v => (v.length, v)) [12, 0, 0, 0, 1, 0, 0, 0, 9, 9, 9, 9, 7] 0 8
    (by decide)

/-- C6: a `fd_read` call on descriptor 0 with at least one vector
services only the first vector — the provider is invoked exactly once
(singleton call log), on a view whose length is the first vector's
declared length; its returned count is stored at the result-length
location; all other memory cells are untouched. -/
theorem C6_first_vector_serviced (stdin : List Nat → Nat × List Nat) (mem : List Nat)
    (iovsptr iovslen readptr buf len : Nat)
    (hn : iovslen ≠ 0)
    (hbuf : getU32m mem iovsptr = some buf)
    (hlen : getU32m mem (iovsptr + 4) = some len)
    (hrange : buf + len ≤ mem.length)
    (hread : readptr + 4 ≤ mem.length) :
    ∃ m2, fd_read stdin mem 0 iovsptr iovslen readptr =
        some (0, m2, [byteSlice mem buf len]) ∧
      (byteSlice mem buf len).length = len ∧
      m2.length = mem.length ∧
      getU32m m2 readptr = some ((stdin (byteSlice mem buf len)).1 % 4294967296) ∧
      ∀ j, (j < buf ∨ buf + len ≤ j) → (j < readptr ∨ readptr + 4 ≤ j) →
        m2.getD j 0 = mem.getD j 0 := by
  have hbl : (byteSlice mem buf len).length = len := byteSlice_length hrange
  have hov : (overlay (byteSlice mem buf len) (stdin (byteSlice mem buf len)).2).length =
      len := by
    rw [overlay_length, hbl]
  have hm1len : (writeRegion mem buf
      (overlay (byteSlice mem buf len) (stdin (byteSlice mem buf len)).2)).length =
      mem.length :=
    writeRegion_length (by rw [hov]; omega)
  obtain ⟨m2, hset, hlen2, hget, hout⟩ :
      ∃ m2, setU32m (writeRegion mem buf
          (overlay (byteSlice mem buf len) (stdin (byteSlice mem buf len)).2)) readptr
          (stdin (byteSlice mem buf len)).1 = some m2 ∧
        m2.length = (writeRegion mem buf
          (overlay (byteSlice mem buf len) (stdin (byteSlice mem buf len)).2)).length ∧
        getU32m m2 readptr = some ((stdin (byteSlice mem buf len)).1 % 4294967296) ∧
        ∀ j, (j < readptr ∨ readptr + 4 ≤ j) →
          m2.getD j 0 = (writeRegion mem buf
            (overlay (byteSlice mem buf len) (stdin (byteSlice mem buf len)).2)).getD j 0 :=
    getU32m_setU32m (by rw [hm1len]; exact hread)
  refine ⟨m2, ?_, hbl, hlen2.trans hm1len, hget, ?_⟩
  · unfold fd_read
    rw [if_neg (by simp), if_neg hn, hbuf, obind_some, hlen, obind_some,
      show sliceM mem buf len = some (byteSlice mem buf len) from by
        unfold sliceM; rw [if_pos hrange],
      obind_some]
    dsimp only []
    rw [hset]
    rfl
  · intro j hjv hjr
    rw [hout j hjr]
    exact getD_writeRegion_outside (by rw [hov]; omega) (by rw [hov]; omega)

/-- Witness for C6: one vector (buf 12, len 1) on a 13-byte memory; the
provider writes byte 9 into the view and reports 1 byte supplied. -/
theorem C6_witness :
    ∃ m2, fd_read (fun v => (v.length, [9])) [12, 0, 0, 0, 1, 0, 0, 0, 0, 0, 0, 0, 7]
        0 0 1 8 = some (0, m2, [byteSlice [12, 0, 0, 0, 1, 0, 0, 0, 0, 0, 0, 0, 7] 12 1]) ∧
      (byteSlice [12, 0, 0, 0, 1, 0, 0, 0, 0, 0, 0, 0, 7] 12 1).length = 1 ∧
      m2.length = 13 ∧
      getU32m m2 8 = some 1 ∧
      ∀ j, (j < 12 ∨ 13 ≤ j) → (j < 8 ∨ 12 ≤ j) →
        m2.getD j 0 = ([12, 0, 0, 0, 1, 0, 0, 0, 0, 0, 0, 0, 7] : List Nat).getD j 0 := by
  have h := C6_first_vector_serviced (fun v => (v.length, [9]))
    [12, 0, 0, 0, 1, 0, 0, 0, 0, 0, 0, 0, 7] 0 1 8 12 1
    (by decide) (by decide) (by decide) (by decide) (by decide)
  simpa using h

/-- A consumer that accepts 0 bytes per call (allowed by the claim's
"any count from 0 up to the offered length"). -/
def zeroConsumer : List Nat → Nat := fun _ => 0

/-- 13-byte memory holding one ciovec (buf = 12, len = 1) at address 0,
the result word at 8 and the payload byte at 12. -/
def cmemW : List Nat := [12, 0, 0, 0, 1, 0, 0, 0, 0, 0, 0, 0, 7]

/-- With the zero consumer the inner write loop never terminates on a
nonempty vector: every fuel is exhausted. -/
theorem writeLoop_zero_none : ∀ (fuel : Nat) (b : List Nat), b ≠ [] →
    writeLoop zeroConsumer b fuel = none := by
  intro fuel
  induction fuel with
  | zero =>
    intro b hb
    unfold writeLoop
    rw [if_neg (by simpa using hb)]
  | succ n ih =>
    intro b hb
    unfold writeLoop
    rw [if_neg (by simpa using hb)]
    have hz : zeroConsumer b = 0 := rfl
    rw [hz, List.drop_zero]
    dsimp only []
    rw [ih b hb]

/-- C7 counterexample: on descriptor 1 with a single nonempty vector and
the zero consumer, `fd_write` never terminates — no fuel makes the call
return, refuting the claim's "for every bound consumer that may accept
fewer bytes than offered per call (returning any count from 0 up to the
offered length), the call terminates". -/
theorem C7_counterexample : ¬ fdWriteTerminates zeroConsumer zeroConsumer cmemW 1 0 1 8 := by
  rintro ⟨fuel, hsome⟩
  have hnone : fd_write zeroConsumer zeroConsumer cmemW 1 0 1 8 fuel = none := by
    unfold fd_write fdWriteRun
    rw [if_pos rfl]
    unfold writeVecs
    rw [show getU32m cmemW 0 = some 12 from rfl, obind_some,
      show getU32m cmemW (0 + 4) = some 1 from rfl, obind_some,
      show sliceM cmemW 12 1 = some [7] from rfl, obind_some,
      writeLoop_zero_none fuel [7] (by simp)]
    rfl
  rw [hnone] at hsome
  exact absurd hsome (by simp)

/-- `writeLoop` results are stable under extra fuel. -/
theorem writeLoop_mono (w : List Nat → Nat) :
    ∀ (fuel fuel' : Nat) (b : List Nat) (res : Nat × List (List Nat)),
      writeLoop w b fuel = some res → fuel ≤ fuel' → writeLoop w b fuel' = some res := by
  intro fuel
  induction fuel with
  | zero =>
    intro fuel' b res h hle
    unfold writeLoop at h
    by_cases hb : b.length = 0
    · rw [if_pos hb] at h
      unfold writeLoop
      rw [if_pos hb]
      exact h
    · rw [if_neg hb] at h
      dsimp only [] at h
      exact absurd h (by simp)
  | succ n ih =>
    intro fuel' b res h hle
    unfold writeLoop at h
    by_cases hb : b.length = 0
    · rw [if_pos hb] at h
      unfold writeLoop
      rw [if_pos hb]
      exact h
    · rw [if_neg hb] at h
      dsimp only [] at h
      cases hrec : writeLoop w (b.drop (w b)) n with
      | none =>
        rw [hrec] at h
        exact absurd h (by simp)
      | some p =>
        rw [hrec] at h
        obtain ⟨fuel'', rfl⟩ : ∃ k, fuel' = k + 1 := ⟨fuel' - 1, by omega⟩
        unfold writeLoop
        rw [if_neg hb]
        dsimp only []
        rw [ih fuel'' (b.drop (w b)) p hrec (by omega)]
        exact h

/-- With a consumer that accepts at least one byte per call (and at most
the offered length), the write loop drains the whole vector with fuel at
least the vector's length. -/
theorem writeLoop_good (w : List Nat → Nat)
    (hw : ∀ b : List Nat, b ≠ [] → 1 ≤ w b ∧ w b ≤ b.length) :
    ∀ (k : Nat) (b : List Nat), b.length ≤ k →
      ∃ log, writeLoop w b k = some (b.length, log) := by
  intro k
  induction k with
  | zero =>
    intro b hbk
    refine ⟨[], ?_⟩
    have hb : b.length = 0 := by omega
    unfold writeLoop
    rw [if_pos hb, hb]
  | succ n ih =>
    intro b hbk
    by_cases hb : b.length = 0
    · refine ⟨[], ?_⟩
      unfold writeLoop
      rw [if_pos hb, hb]
    · obtain ⟨h1, h2⟩ := hw b (by intro he; rw [he] at hb; exact hb rfl)
      have hdrop : (b.drop (w b)).length = b.length - w b := by simp
      obtain ⟨log', hrec⟩ := ih (b.drop (w b)) (by omega)
      refine ⟨b :: log', ?_⟩
      unfold writeLoop
      rw [if_neg hb]
      dsimp only []
      rw [hrec]
      dsimp only []
      have hsum : w b + (b.drop (w b)).length = b.length := by
        rw [hdrop]
        omega
      rw [hsum]

/-- Every in-range vector of the ciovec array is fully drained: the
lengths decode and `writeVecs` returns their sum with full fuel. -/
theorem writeVecs_good (w : List Nat → Nat) (mem : List Nat)
    (hw : ∀ b : List Nat, b ≠ [] → 1 ≤ w b ∧ w b ≤ b.length) :
    ∀ (n ptr : Nat),
      (∀ i, i < n → ∃ bi li, getU32m mem (ptr + i * 8) = some bi ∧
        getU32m mem (ptr + i * 8 + 4) = some li ∧ bi + li ≤ mem.length) →
      ∃ lens log, vecLens mem ptr n = some lens ∧
        writeVecs w mem mem.length ptr n = some (lens.sum, log) := by
  intro n
  induction n with
  | zero =>
    intro ptr hvec
    exact ⟨[], [], rfl, rfl⟩
  | succ n ih =>
    intro ptr hvec
    obtain ⟨b0, l0, hb0, hl0, hr0⟩ := hvec 0 (by omega)
    rw [show ptr + 0 * 8 = ptr from by ring] at hb0
    rw [show ptr + 0 * 8 + 4 = ptr + 4 from by ring] at hl0
    obtain ⟨lens, log, hlens, hvecs⟩ := ih (ptr + 8) (fun i hi => by
      obtain ⟨bi, li, h1, h2, h3⟩ := hvec (i + 1) (by omega)
      rw [show ptr + (i + 1) * 8 = ptr + 8 + i * 8 from by ring] at h1
      rw [show ptr + (i + 1) * 8 + 4 = ptr + 8 + i * 8 + 4 from by ring] at h2
      exact ⟨bi, li, h1, h2, h3⟩)
    have hslice : sliceM mem b0 l0 = some (byteSlice mem b0 l0) := by
      unfold sliceM
      rw [if_pos hr0]
    have hsl : (byteSlice mem b0 l0).length = l0 := byteSlice_length hr0
    obtain ⟨log1, hloop⟩ := writeLoop_good w hw mem.length (byteSlice mem b0 l0) (by omega)
    refine ⟨l0 :: lens, log1 ++ log, ?_, ?_⟩
    · unfold vecLens
      rw [hb0, obind_some, hl0, obind_some, hlens, obind_some]
    · unfold writeVecs
      rw [hb0, obind_some, hl0, obind_some, hslice, obind_some, hloop, obind_some]
      dsimp only []
      rw [hvecs, obind_some]
      dsimp only []
      rw [hsl, List.sum_cons]

/-- C7 (amended): on descriptor 1 or 2, with in-range vectors, an
in-range result word and consumers that accept at least one byte per
call (at most the offered length), `fd_write` terminates, fully consumes
every vector's declared length, stores the total (the sum of the
declared lengths) at the result-length location and returns success. -/
theorem C7_write_drains_all_vectors (stdout stderr : List Nat → Nat) (mem : List Nat)
    (fd ciovsptr ciovslen writtenptr : Nat)
    (hfd : fd = 1 ∨ fd = 2)
    (hw1 : ∀ b : List Nat, b ≠ [] → 1 ≤ stdout b ∧ stdout b ≤ b.length)
    (hw2 : ∀ b : List Nat, b ≠ [] → 1 ≤ stderr b ∧ stderr b ≤ b.length)
    (hvec : ∀ i, i < ciovslen → ∃ bi li, getU32m mem (ciovsptr + i * 8) = some bi ∧
      getU32m mem (ciovsptr + i * 8 + 4) = some li ∧ bi + li ≤ mem.length)
    (hwp : writtenptr + 4 ≤ mem.length) :
    ∃ lens log m2, vecLens mem ciovsptr ciovslen = some lens ∧
      fd_write stdout stderr mem fd ciovsptr ciovslen writtenptr mem.length =
        some (0, m2, log) ∧
      fdWriteTerminates stdout stderr mem fd ciovsptr ciovslen writtenptr ∧
      m2.length = mem.length ∧
      getU32m m2 writtenptr = some (lens.sum % 4294967296) := by
  rcases hfd with hfd | hfd <;> subst hfd
  · obtain ⟨lens, log, hlens, hvecs⟩ := writeVecs_good stdout mem hw1 ciovslen ciovsptr hvec
    obtain ⟨m2, hset, hlen2, hget, hout⟩ :
        ∃ m2, setU32m mem writtenptr lens.sum = some m2 ∧ m2.length = mem.length ∧
          getU32m m2 writtenptr = some (lens.sum % 4294967296) ∧
          ∀ j, (j < writtenptr ∨ writtenptr + 4 ≤ j) → m2.getD j 0 = mem.getD j 0 :=
      getU32m_setU32m hwp
    have hrun : fd_write stdout stderr mem 1 ciovsptr ciovslen writtenptr mem.length =
        some (0, m2, log) := by
      unfold fd_write fdWriteRun
      rw [if_pos rfl, hvecs, obind_some]
      dsimp only []
      rw [hset, obind_some]
    exact ⟨lens, log, m2, hlens, hrun, ⟨mem.length, by rw [hrun]; rfl⟩, hlen2, hget⟩
  · obtain ⟨lens, log, hlens, hvecs⟩ := writeVecs_good stderr mem hw2 ciovslen ciovsptr hvec
    obtain ⟨m2, hset, hlen2, hget, hout⟩ :
        ∃ m2, setU32m mem writtenptr lens.sum = some m2 ∧ m2.length = mem.length ∧
          getU32m m2 writtenptr = some (lens.sum % 4294967296) ∧
          ∀ j, (j < writtenptr ∨ writtenptr + 4 ≤ j) → m2.getD j 0 = mem.getD j 0 :=
      getU32m_setU32m hwp
    have hrun : fd_write stdout stderr mem 2 ciovsptr ciovslen writtenptr mem.length =
        some (0, m2, log) := by
      unfold fd_write fdWriteRun
      rw [if_neg (by decide), if_pos rfl, hvecs, obind_some]
      dsimp only []
      rw [hset, obind_some]
    exact ⟨lens, log, m2, hlens, hrun, ⟨mem.length, by rw [hrun]; rfl⟩, hlen2, hget⟩

/-- Witness for C7 (amended): one vector of length 1 on `cmemW`, with the
all-accepting consumer; the call terminates and stores total 1. -/
theorem C7_witness :
    ∃ lens log m2, vecLens cmemW 0 1 = some lens ∧
      fd_write (fun b => b.length) (fun b => b.length) cmemW 1 0 1 8 cmemW.length =
        some (0, m2, log) ∧
      fdWriteTerminates (fun b => b.length) (fun b => b.length) cmemW 1 0 1 8 ∧
      m2.length = cmemW.length ∧
      getU32m m2 8 = some (lens.sum % 4294967296) :=
  C7_write_drains_all_vectors (fun b => b.length) (fun b => b.length) cmemW 1 0 1 8
    (Or.inl rfl)
    (fun b hb => ⟨List.length_pos.mpr hb, le_refl b.length⟩)
    (fun b hb => ⟨List.length_pos.mpr hb, le_refl b.length⟩)
    (by
      intro i hi
      have hi0 : i = 0 := by omega
      subst hi0
      exact ⟨12, 1, by decide, by decide, by decide⟩)
    (by decide)
